import Mathlib

/-!
Verification development for the trendix-ai-server repository.

The repository ships a FastAPI router (`trend_router.py`), a stopword
repository implementation (`stopword_repository_impl.py`) and its abstract
port (`stopword_repository_port.py`).  The trend/surge core
(`TrendQueryUseCase` and the components behind it) is declared by the spec
and called by the router but its code is not part of the repository
snapshot, so the core operations below are modelled from the spec.

This file first sets up generic machinery (a decidable lexicographic order
on strings, an insertion sort with conditional sortedness lemmas, a
rank-assignment combinator), then embeds the data model and operations,
and finally states and proves the claims.
-/

/-- Lexicographic comparison of character lists, by code point. -/
def lexLe : List Char → List Char → Bool
  | [], _ => true
  | _ :: _, [] => false
  | x :: xs, y :: ys =>
    if x.toNat < y.toNat then true
    else if y.toNat < x.toNat then false
    else lexLe xs ys

/-- String order used for deterministic tie-breaks, via the code points. -/
def strLe (a b : String) : Bool := lexLe a.data b.data

/-- Strict string order: non-strict order together with inequality. -/
def StrLt (a b : String) : Prop := strLe a b = true ∧ a ≠ b

/-- Insertion step of the deterministic insertion sort. -/
def insertLe {α : Type*} (le : α → α → Bool) (a : α) : List α → List α
  | [] => [a]
  | b :: bs => if le a b then a :: b :: bs else b :: insertLe le a bs

/-- Deterministic insertion sort on a boolean comparator. -/
def sortBy {α : Type*} (le : α → α → Bool) : List α → List α
  | [] => []
  | a :: as => insertLe le a (sortBy le as)

/-- Attach 1-based ranks (starting from `n`) to a list, building final entries. -/
def withRanksFrom {α β : Type*} (f : Nat → α → β) : Nat → List α → List β
  | _, [] => []
  | n, a :: as => f n a :: withRanksFrom f (n + 1) as

/-- Exact (unreduced) fraction: scores and rates are rationals `num / den`.
All fractions produced by the operations below have a positive denominator. -/
structure Frac where
  num : Int
  den : Int
deriving DecidableEq, Repr

/-- Strict value order on fractions via cross multiplication (sound when the
denominators are positive). -/
def FracLt (a b : Frac) : Prop := a.num * b.den < b.num * a.den

/-- Value equality on fractions via cross multiplication. -/
def FracEq (a b : Frac) : Prop := a.num * b.den = b.num * a.den

instance (a b : Frac) : Decidable (FracLt a b) := by unfold FracLt; infer_instance

instance (a b : Frac) : Decidable (FracEq a b) := by unfold FracEq; infer_instance

/-- MetricSnapshot record of the data model: one timestamped measurement of a
content item's view count, as ingested from an external platform. -/
structure MetricSnapshot where
  content_id : String
  category : String
  platform : String
  collected_at : Int
  view_count : Nat
deriving DecidableEq, Repr

/-- Platform filter: an absent platform matches every snapshot. -/
def platformMatches (platform : Option String) (s : MetricSnapshot) : Bool :=
  match platform with
  | none => true
  | some p => s.platform == p

/-- Membership of a snapshot in the trailing window of the given length. -/
def inWindow (now days : Int) (s : MetricSnapshot) : Bool :=
  decide (now - days ≤ s.collected_at) && decide (s.collected_at ≤ now)

/-- Snapshots of one content item. -/
def snapsOf (c : String) (snaps : List MetricSnapshot) : List MetricSnapshot :=
  snaps.filter (fun s => s.content_id == c)

/-- Most recent snapshot collected at or before instant `t`, if any.
Modelled from the spec: reference-point selection of the SurgeDetector
(latest snapshot not after `now`, baseline closest to but not after
`now - velocity_days`). -/
def latestAtOrBefore (t : Int) : List MetricSnapshot → Option MetricSnapshot
  | [] => none
  | s :: rest =>
    match latestAtOrBefore t rest with
    | none => if s.collected_at ≤ t then some s else none
    | some b =>
      if decide (s.collected_at ≤ t) && decide (b.collected_at < s.collected_at) then some s
      else some b

/-- Small positive floor preventing division by zero on zero baselines.
Modelled from the spec: the `epsilon` of the SurgeDetector growth-rate step. -/
def epsilon : Frac := ⟨1, 1000⟩

/-- Maximum of two fractions by value. -/
def fracMax (a b : Frac) : Frac := if decide (FracLt a b) then b else a

/-- Divide an integer by a fraction. -/
def intDivFrac (z : Int) (f : Frac) : Frac := ⟨z * f.den, f.num⟩

/-- Growth rate `delta / max(baseline, epsilon)`.  Modelled from the spec:
step 4 of the SurgeDetector algorithm. -/
def growthOf (delta : Int) (baseline : Nat) : Frac :=
  intDivFrac delta (fracMax ⟨(baseline : Int), 1⟩ epsilon)

/-- SurgeEntry derived record of the data model. -/
structure SurgeEntry where
  content_id : String
  delta_views_window : Int
  growth_rate_window : Frac
  surge_score : Frac
  rank : Nat
deriving DecidableEq, Repr

/-- Internal surge candidate before ranking. -/
structure SurgeCand where
  content_id : String
  delta : Int
  growth : Frac
deriving DecidableEq, Repr

/-- Platform- and window-filtered snapshots that make a content a surge
candidate.  Modelled from the spec: step 1 of the SurgeDetector algorithm. -/
def surgeWindowSnaps (snaps : List MetricSnapshot) (now : Int) (platform : Option String)
    (days : Int) : List MetricSnapshot :=
  (snaps.filter (platformMatches platform)).filter (inWindow now days)

/-- Reference points and window metrics for one candidate content.  Modelled
from the spec: steps 2-4 of the SurgeDetector algorithm; a content with no
snapshot at or before `now - velocity_days` is excluded (`none`). -/
def surgeCandOf (now velocity_days : Int) (filtered : List MetricSnapshot) (c : String) :
    Option SurgeCand :=
  match latestAtOrBefore now (snapsOf c filtered),
      latestAtOrBefore (now - velocity_days) (snapsOf c filtered) with
  | some latest, some baseline =>
    some ⟨c, (latest.view_count : Int) - (baseline.view_count : Int),
      growthOf ((latest.view_count : Int) - (baseline.view_count : Int)) baseline.view_count⟩
  | _, _ => none

/-- Surge candidates: distinct in-window contents with both reference points,
keeping only strictly positive window deltas.  Modelled from the spec:
steps 1-4 and the non-positive-delta edge case of the SurgeDetector. -/
def surgeCandidates (snaps : List MetricSnapshot) (now : Int) (platform : Option String)
    (days velocity_days : Int) : List SurgeCand :=
  (((surgeWindowSnaps snaps now platform days).map (fun s => s.content_id)).dedup.filterMap
      (surgeCandOf now velocity_days (snaps.filter (platformMatches platform)))).filter
    (fun cand => decide (0 < cand.delta))

/-- Surge sort key (non-strict): score descending, then delta descending, then
content identifier ascending.  Modelled from the spec: step 6 of the
SurgeDetector algorithm. -/
def SurgeCandLE (a b : SurgeCand) : Prop :=
  FracLt b.growth a.growth ∨
    (FracEq a.growth b.growth ∧
      (b.delta < a.delta ∨ (a.delta = b.delta ∧ strLe a.content_id b.content_id = true)))

instance (a b : SurgeCand) : Decidable (SurgeCandLE a b) := by
  unfold SurgeCandLE; infer_instance

/-- Boolean comparator realizing the surge sort key. -/
def surgeBefore (a b : SurgeCand) : Bool := decide (SurgeCandLE a b)

/-- Strict surge sort order on candidates. -/
def SurgeCandLT (a b : SurgeCand) : Prop :=
  FracLt b.growth a.growth ∨
    (FracEq a.growth b.growth ∧
      (b.delta < a.delta ∨ (a.delta = b.delta ∧ StrLt a.content_id b.content_id)))

/-- Strict surge sort order on final entries. -/
def SurgeKeyLT (a b : SurgeEntry) : Prop :=
  FracLt b.surge_score a.surge_score ∨
    (FracEq a.surge_score b.surge_score ∧
      (b.delta_views_window < a.delta_views_window ∨
        (a.delta_views_window = b.delta_views_window ∧ StrLt a.content_id b.content_id)))

/-- Final surge entry: its score is the growth rate in the current policy. -/
def surgeEntryOf (r : Nat) (cand : SurgeCand) : SurgeEntry :=
  ⟨cand.content_id, cand.delta, cand.growth, cand.growth, r⟩

/-- The `surge` operation.  Modelled from the spec: the SurgeDetector contract
`surge(platform?, days, velocity_days, limit)`; `now` and the snapshot store
content are explicit parameters of the embedding. -/
def surge (snaps : List MetricSnapshot) (now : Int) (platform : Option String)
    (days velocity_days : Int) (limit : Nat) : List SurgeEntry :=
  withRanksFrom surgeEntryOf 1
    ((sortBy surgeBefore (surgeCandidates snaps now platform days velocity_days)).take limit)

/-- ContentRecommendation derived record of the data model. -/
structure ContentRecommendation where
  content_id : String
  category : String
  score : Frac
  freshness_days : Int
  rank : Nat
deriving DecidableEq, Repr

/-- Internal recommendation candidate before ranking. -/
structure RecCand where
  content_id : String
  category : String
  magnitude : Nat
  freshness : Int
deriving DecidableEq, Repr

/-- Recommendation score.  Modelled from the spec: the exact formula is an
open question of the spec; the spec requires a deterministic, non-negative
score in which, at equal magnitude, strictly smaller freshness gives a
strictly larger score.  The decaying-weight combination
`(magnitude + 1) / (1 + freshness_days)` is chosen, which satisfies that
contract. -/
def recScore (magnitude : Nat) (freshness : Int) : Frac :=
  ⟨(magnitude : Int) + 1, 1 + freshness⟩

/-- Score of a recommendation candidate. -/
def recCandScore (cand : RecCand) : Frac := recScore cand.magnitude cand.freshness

/-- Category-, platform- and window-filtered snapshots feeding `recommend`.
Modelled from the spec: the RecommendationRanker filter step. -/
def recWindowSnaps (snaps : List MetricSnapshot) (now : Int) (category : String)
    (platform : Option String) (days : Int) : List MetricSnapshot :=
  ((snaps.filter (fun s => s.category == category)).filter (platformMatches platform)).filter
    (inWindow now days)

/-- Latest in-window snapshot of one content, as magnitude and freshness.
Modelled from the spec: the RecommendationRanker per-content step. -/
def recCandOf (now : Int) (category : String) (w : List MetricSnapshot) (c : String) :
    Option RecCand :=
  match latestAtOrBefore now (snapsOf c w) with
  | some latest => some ⟨c, category, latest.view_count, now - latest.collected_at⟩
  | none => none

/-- Recommendation candidates: one per distinct in-window content. -/
def recCandidates (snaps : List MetricSnapshot) (now : Int) (category : String)
    (platform : Option String) (days : Int) : List RecCand :=
  ((recWindowSnaps snaps now category platform days).map (fun s => s.content_id)).dedup.filterMap
    (recCandOf now category (recWindowSnaps snaps now category platform days))

/-- Recommendation sort key (non-strict): score descending, then content
identifier ascending. -/
def RecCandLE (a b : RecCand) : Prop :=
  FracLt (recCandScore b) (recCandScore a) ∨
    (FracEq (recCandScore a) (recCandScore b) ∧ strLe a.content_id b.content_id = true)

instance (a b : RecCand) : Decidable (RecCandLE a b) := by
  unfold RecCandLE; infer_instance

/-- Boolean comparator realizing the recommendation sort key. -/
def recBefore (a b : RecCand) : Bool := decide (RecCandLE a b)

/-- Strict recommendation sort order on final entries. -/
def RecKeyLT (a b : ContentRecommendation) : Prop :=
  FracLt b.score a.score ∨ (FracEq a.score b.score ∧ StrLt a.content_id b.content_id)

/-- Final recommendation entry. -/
def recEntryOf (r : Nat) (cand : RecCand) : ContentRecommendation :=
  ⟨cand.content_id, cand.category, recCandScore cand, cand.freshness, r⟩

/-- The `recommend` operation.  Modelled from the spec: the
RecommendationRanker contract `recommend(category, platform?, days, limit)`. -/
def recommend (snaps : List MetricSnapshot) (now : Int) (category : String)
    (platform : Option String) (days : Int) (limit : Nat) : List ContentRecommendation :=
  withRanksFrom recEntryOf 1
    ((sortBy recBefore (recCandidates snaps now category platform days)).take limit)

/-- Magnitude signal of a content as used by `recommend`: the view count of
its latest in-window snapshot, when it has one. -/
def recommendMagnitude (snaps : List MetricSnapshot) (now : Int) (category : String)
    (platform : Option String) (days : Int) (c : String) : Option Nat :=
  (latestAtOrBefore now (snapsOf c (recWindowSnaps snaps now category platform days))).map
    (fun s => s.view_count)

/-- CategoryTrendEntry derived record of the data model. -/
structure CategoryTrendEntry where
  category : String
  rank : Nat
  aggregate_score : Nat
  sample_count : Nat
deriving DecidableEq, Repr

/-- Internal hot-category candidate before ranking. -/
structure CatCand where
  category : String
  score : Nat
  sample_count : Nat
deriving DecidableEq, Repr

/-- Default collection window of the TrendAggregator.  Modelled from the spec:
the spec only says "the default/most-recent collection window"; a fixed
seven-day default is chosen. -/
def default_window_days : Int := 7

/-- Platform- and default-window-filtered snapshots feeding `hot_categories`. -/
def hotWindowSnaps (snaps : List MetricSnapshot) (now : Int) (platform : Option String) :
    List MetricSnapshot :=
  (snaps.filter (platformMatches platform)).filter (inWindow now default_window_days)

/-- Aggregate of one category: the most recent snapshot per distinct content
(avoiding double-counting of re-collections), summed.  Modelled from the
spec: the TrendAggregator algorithm. -/
def hotCandOf (now : Int) (w : List MetricSnapshot) (cat : String) : CatCand :=
  let catSnaps := w.filter (fun s => s.category == cat)
  let contents := (catSnaps.map (fun s => s.content_id)).dedup
  ⟨cat,
    (contents.filterMap
      (fun c => (latestAtOrBefore now (snapsOf c catSnaps)).map (fun s => s.view_count))).sum,
    contents.length⟩

/-- Hot-category candidates: one per distinct in-window category. -/
def hotCandidates (snaps : List MetricSnapshot) (now : Int) (platform : Option String) :
    List CatCand :=
  ((hotWindowSnaps snaps now platform).map (fun s => s.category)).dedup.map
    (hotCandOf now (hotWindowSnaps snaps now platform))

/-- Hot-category sort key (non-strict): aggregate score descending, then
category name ascending. -/
def CatCandLE (a b : CatCand) : Prop :=
  b.score < a.score ∨ (a.score = b.score ∧ strLe a.category b.category = true)

instance (a b : CatCand) : Decidable (CatCandLE a b) := by
  unfold CatCandLE; infer_instance

/-- Boolean comparator realizing the hot-category sort key. -/
def hotBefore (a b : CatCand) : Bool := decide (CatCandLE a b)

/-- Strict hot-category sort order on final entries. -/
def CatKeyLT (a b : CategoryTrendEntry) : Prop :=
  b.aggregate_score < a.aggregate_score ∨
    (a.aggregate_score = b.aggregate_score ∧ StrLt a.category b.category)

/-- Final hot-category entry. -/
def catEntryOf (r : Nat) (cand : CatCand) : CategoryTrendEntry :=
  ⟨cand.category, r, cand.score, cand.sample_count⟩

/-- The `hot_categories` operation.  Modelled from the spec: the
TrendAggregator contract `hot_categories(platform?, limit)`. -/
def hot_categories (snaps : List MetricSnapshot) (now : Int) (platform : Option String)
    (limit : Nat) : List CategoryTrendEntry :=
  withRanksFrom catEntryOf 1
    ((sortBy hotBefore (hotCandidates snaps now platform)).take limit)

/-- Response of a router endpoint: a body, or an HTTP error with a status
code and a detail message (FastAPI `HTTPException`). -/
inductive RouterResponse (α : Type) where
  | ok (body : α)
  | httpError (status : Nat) (detail : String)
deriving DecidableEq, Repr

/-- Router endpoint `GET /categories/hot` (`trend_router.get_hot_categories`):
delegates to the usecase and raises 404 when the result is empty. -/
def get_hot_categories (snaps : List MetricSnapshot) (now : Int) (platform : Option String)
    (limit : Nat) : RouterResponse (List CategoryTrendEntry) :=
  let result := hot_categories snaps now platform limit
  if result.isEmpty then RouterResponse.httpError 404 "집계된 카테고리 트렌드가 없습니다."
  else RouterResponse.ok result

/-- Router endpoint `GET /categories/{category}/recommendations`
(`trend_router.get_category_recommendations`): delegates to the usecase and
raises 404 when the result is empty. -/
def get_category_recommendations (snaps : List MetricSnapshot) (now : Int) (category : String)
    (platform : Option String) (days : Int) (limit : Nat) :
    RouterResponse (List ContentRecommendation) :=
  let items := recommend snaps now category platform days limit
  if items.isEmpty then RouterResponse.httpError 404 "추천 가능한 콘텐츠가 없습니다."
  else RouterResponse.ok items

/-- Router endpoint `GET /videos/surge` (`trend_router.get_surge_videos`):
delegates to the usecase and raises 404 when the result is empty. -/
def get_surge_videos (snaps : List MetricSnapshot) (now : Int) (platform : Option String)
    (days velocity_days : Int) (limit : Nat) : RouterResponse (List SurgeEntry) :=
  let items := surge snaps now platform days velocity_days limit
  if items.isEmpty then RouterResponse.httpError 404 "급등 영상이 없습니다."
  else RouterResponse.ok items

/-- FastAPI integer query parameter with bounds and a default: an absent
parameter takes the default, an out-of-range value is rejected. -/
def queryIntParam (lo hi dflt : Int) (p : Option Int) : Option Int :=
  match p with
  | none => some dflt
  | some n => if decide (lo ≤ n) && decide (n ≤ hi) then some n else none

/-- Router endpoint `GET /categories` (`trend_router.list_categories`):
`limit` is a query parameter with default 100 and bounds 1..500; the endpoint
delegates to the usecase's `get_categories` (whose body is outside this
repository snapshot, hence abstracted as a function argument) and raises 404
when the returned category list is empty. -/
def list_categories (get_categories : Int → List String) (limitParam : Option Int) :
    RouterResponse (List String) :=
  match queryIntParam 1 500 100 limitParam with
  | none => RouterResponse.httpError 422 "validation error"
  | some limit =>
    let categories := get_categories limit
    if categories.isEmpty then RouterResponse.httpError 404 "등록된 카테고리가 없습니다."
    else RouterResponse.ok categories

/-- Row of the stopword table (`StopwordORM`): a word, its language and an
enabled flag. -/
structure StopwordRow where
  word : String
  lang : String
  enabled : Bool
deriving DecidableEq, Repr

/-- Result set of the query issued by `get_stopwords`: words of the rows whose
language equals `lang` and whose enabled flag is true, as a set (the Python
set comprehension is modelled by deduplication). -/
def stopwordQueryWords (rows : List StopwordRow) (lang : String) : List String :=
  ((rows.filter (fun r => r.lang == lang && r.enabled)).map (fun r => r.word)).dedup

/-- Database session with an identifier and an open/closed state. -/
structure DBSession where
  sid : Nat
  isOpen : Bool
deriving DecidableEq, Repr

/-- Session lifecycle events observable from repository code. -/
inductive SessionEvent where
  | acquired (sid : Nat)
  | released (sid : Nat)
deriving DecidableEq, Repr

/-- `SessionLocal()`: acquires a fresh session and records the acquisition. -/
def sessionLocal (sid : Nat) : DBSession × List SessionEvent :=
  (⟨sid, true⟩, [SessionEvent.acquired sid])

/-- `StopwordRepositoryImpl`: it holds the session created by its
constructor. -/
structure StopwordRepositoryImpl where
  db : DBSession
deriving DecidableEq, Repr

/-- `StopwordRepositoryImpl.__init__`: `self.db = SessionLocal()` — the session
is acquired at construction time, not inside `get_stopwords`. -/
def stopwordRepositoryInit (sid : Nat) : StopwordRepositoryImpl × List SessionEvent :=
  ((⟨(sessionLocal sid).1⟩ : StopwordRepositoryImpl), (sessionLocal sid).2)

/-- `StopwordRepositoryImpl.get_stopwords`: queries `self.db` and closes it in
a `finally` block.  On an open session it returns the filtered word set and
releases the session; on a session already closed by an earlier call the query
fails.  Returns the result, the repository state after the call, and the
session events of the call. -/
def get_stopwords (repo : StopwordRepositoryImpl) (rows : List StopwordRow) (lang : String) :
    Except String (List String) × StopwordRepositoryImpl × List SessionEvent :=
  if repo.db.isOpen then
    (Except.ok (stopwordQueryWords rows lang),
      (⟨⟨repo.db.sid, false⟩⟩ : StopwordRepositoryImpl),
      [SessionEvent.released repo.db.sid])
  else
    (Except.error "session already closed", repo, [])

/-- Scenario A snapshots: contentX collected with 100 views at day 0 and 150
views at day 1. -/
def scenarioASnaps : List MetricSnapshot :=
  [⟨"contentX", "news", "youtube", 0, 100⟩, ⟨"contentX", "news", "youtube", 1, 150⟩]

/-- Scenario B snapshots: contentY with a zero-view baseline at day 0 and 20
views at day 1. -/
def scenarioBSnaps : List MetricSnapshot :=
  [⟨"contentY", "news", "youtube", 0, 0⟩, ⟨"contentY", "news", "youtube", 1, 20⟩]

/-- Snapshots where contentZ has in-window data but no snapshot at or before
the baseline instant. -/
def scenarioCSnaps : List MetricSnapshot :=
  [⟨"contentX", "news", "youtube", 0, 100⟩, ⟨"contentX", "news", "youtube", 1, 150⟩,
   ⟨"contentZ", "news", "youtube", 1, 999⟩]

/-- Snapshots with two contents of equal magnitude and different freshness. -/
def recDemoSnaps : List MetricSnapshot :=
  [⟨"a1", "news", "youtube", 5, 10⟩, ⟨"b2", "news", "youtube", 3, 10⟩]

/-- Demo stopword table used in the session-lifecycle theorem. -/
def demoStopwordRows : List StopwordRow :=
  [⟨"은", "ko", true⟩, ⟨"the", "en", true⟩]

theorem lexLe_refl (a : List Char) : lexLe a a = true := by
  induction a with
  | nil => rfl
  | cons x xs ih =>
    simp only [lexLe]
    rw [if_neg (by omega : ¬ x.toNat < x.toNat), if_neg (by omega : ¬ x.toNat < x.toNat), ih]

theorem lexLe_total (a : List Char) : ∀ b, lexLe a b = true ∨ lexLe b a = true := by
  induction a with
  | nil => intro b; left; rfl
  | cons x xs ih =>
    intro b
    cases b with
    | nil => right; rfl
    | cons y ys =>
      simp only [lexLe]
      rcases Nat.lt_trichotomy x.toNat y.toNat with h | h | h
      · left; rw [if_pos h]
      · rcases ih ys with hh | hh
        · left; rw [if_neg (by omega : ¬ x.toNat < y.toNat),
            if_neg (by omega : ¬ y.toNat < x.toNat)]; exact hh
        · right; rw [if_neg (by omega : ¬ y.toNat < x.toNat),
            if_neg (by omega : ¬ x.toNat < y.toNat)]; exact hh
      · right; rw [if_pos h]

theorem lexLe_trans (a : List Char) :
    ∀ b c, lexLe a b = true → lexLe b c = true → lexLe a c = true := by
  induction a with
  | nil => intro b c _ _; rfl
  | cons x xs ih =>
    intro b c h1 h2
    cases b with
    | nil => simp [lexLe] at h1
    | cons y ys =>
      cases c with
      | nil => simp [lexLe] at h2
      | cons z zs =>
        simp only [lexLe] at h1 h2 ⊢
        rcases Nat.lt_trichotomy x.toNat y.toNat with hxy | hxy | hxy
        · rcases Nat.lt_trichotomy y.toNat z.toNat with hyz | hyz | hyz
          · rw [if_pos (by omega : x.toNat < z.toNat)]
          · rw [if_pos (by omega : x.toNat < z.toNat)]
          · rw [if_neg (by omega : ¬ y.toNat < z.toNat), if_pos hyz] at h2
            simp at h2
        · rcases Nat.lt_trichotomy y.toNat z.toNat with hyz | hyz | hyz
          · rw [if_pos (by omega : x.toNat < z.toNat)]
          · rw [if_neg (by omega : ¬ x.toNat < y.toNat),
              if_neg (by omega : ¬ y.toNat < x.toNat)] at h1
            rw [if_neg (by omega : ¬ y.toNat < z.toNat),
              if_neg (by omega : ¬ z.toNat < y.toNat)] at h2
            rw [if_neg (by omega : ¬ x.toNat < z.toNat),
              if_neg (by omega : ¬ z.toNat < x.toNat)]
            exact ih ys zs h1 h2
          · rw [if_neg (by omega : ¬ y.toNat < z.toNat), if_pos hyz] at h2
            simp at h2
        · rw [if_neg (by omega : ¬ x.toNat < y.toNat), if_pos hxy] at h1
          simp at h1

theorem char_toNat_inj {x y : Char} (h : x.toNat = y.toNat) : x = y :=
  Char.ext (UInt32.ext h)

theorem lexLe_antisymm (a : List Char) :
    ∀ b, lexLe a b = true → lexLe b a = true → a = b := by
  induction a with
  | nil =>
    intro b h1 h2
    cases b with
    | nil => rfl
    | cons y ys => simp [lexLe] at h2
  | cons x xs ih =>
    intro b h1 h2
    cases b with
    | nil => simp [lexLe] at h1
    | cons y ys =>
      simp only [lexLe] at h1 h2
      rcases Nat.lt_trichotomy x.toNat y.toNat with h | h | h
      · rw [if_neg (by omega : ¬ y.toNat < x.toNat), if_pos h] at h2
        simp at h2
      · have hxy : x = y := char_toNat_inj h
        subst hxy
        rw [if_neg (by omega : ¬ x.toNat < x.toNat),
          if_neg (by omega : ¬ x.toNat < x.toNat)] at h1 h2
        rw [ih ys h1 h2]
      · rw [if_neg (by omega : ¬ x.toNat < y.toNat), if_pos h] at h1
        simp at h1

theorem strLe_total (a b : String) : strLe a b = true ∨ strLe b a = true :=
  lexLe_total a.data b.data

theorem strLe_trans {a b c : String} (h1 : strLe a b = true) (h2 : strLe b c = true) :
    strLe a c = true :=
  lexLe_trans a.data b.data c.data h1 h2

theorem strLe_antisymm {a b : String} (h1 : strLe a b = true) (h2 : strLe b a = true) :
    a = b :=
  String.ext (lexLe_antisymm a.data b.data h1 h2)

theorem insertLe_perm {α : Type*} (le : α → α → Bool) (a : α) :
    ∀ l : List α, (insertLe le a l).Perm (a :: l) := by
  intro l
  induction l with
  | nil => exact List.Perm.refl _
  | cons b bs ih =>
    simp only [insertLe]
    by_cases hc : le a b = true
    · rw [if_pos hc]
    · rw [if_neg hc]
      exact List.Perm.trans (List.Perm.cons b ih) (List.Perm.swap a b bs)

theorem sortBy_perm {α : Type*} (le : α → α → Bool) :
    ∀ l : List α, (sortBy le l).Perm l := by
  intro l
  induction l with
  | nil => exact List.Perm.refl _
  | cons a as ih =>
    exact List.Perm.trans (insertLe_perm le a (sortBy le as)) (List.Perm.cons a ih)

theorem pairwise_insertLe {α : Type*} (Q : α → Prop) {le : α → α → Bool}
    (total : ∀ a b, Q a → Q b → le a b = true ∨ le b a = true)
    (htrans : ∀ a b c, Q a → Q b → Q c → le a b = true → le b c = true → le a c = true)
    (a : α) (ha : Q a) :
    ∀ l : List α, (∀ x ∈ l, Q x) → l.Pairwise (fun x y => le x y = true) →
      (insertLe le a l).Pairwise (fun x y => le x y = true) := by
  intro l
  induction l with
  | nil => intro _ _; simp [insertLe]
  | cons b bs ih =>
    intro hQ hp
    have hQb : Q b := hQ b (List.mem_cons_self b bs)
    have hQbs : ∀ x ∈ bs, Q x := fun x hx => hQ x (List.mem_cons_of_mem b hx)
    rcases List.pairwise_cons.mp hp with ⟨hb, hbs⟩
    simp only [insertLe]
    by_cases hc : le a b = true
    · rw [if_pos hc]
      refine List.pairwise_cons.mpr ⟨?_, hp⟩
      intro y hy
      rcases List.mem_cons.mp hy with rfl | hy
      · exact hc
      · exact htrans a b y ha hQb (hQbs y hy) hc (hb y hy)
    · rw [if_neg hc]
      refine List.pairwise_cons.mpr ⟨?_, ih hQbs hbs⟩
      intro y hy
      have hmem : y = a ∨ y ∈ bs := by
        rcases List.mem_cons.mp ((insertLe_perm le a bs).mem_iff.mp hy) with h | h
        · exact Or.inl h
        · exact Or.inr h
      rcases hmem with rfl | hy'
      · rcases total y b ha hQb with h | h
        · exact absurd h hc
        · exact h
      · exact hb y hy'

theorem pairwise_sortBy {α : Type*} (Q : α → Prop) {le : α → α → Bool}
    (total : ∀ a b, Q a → Q b → le a b = true ∨ le b a = true)
    (htrans : ∀ a b c, Q a → Q b → Q c → le a b = true → le b c = true → le a c = true) :
    ∀ l : List α, (∀ x ∈ l, Q x) → (sortBy le l).Pairwise (fun x y => le x y = true) := by
  intro l
  induction l with
  | nil => intro _; simp [sortBy]
  | cons a as ih =>
    intro hQ
    exact pairwise_insertLe Q total htrans a (hQ a (List.mem_cons_self a as)) (sortBy le as)
      (fun x hx => hQ x (List.mem_cons_of_mem a ((sortBy_perm le as).mem_iff.mp hx)))
      (ih fun x hx => hQ x (List.mem_cons_of_mem a hx))

theorem mem_withRanksFrom {α β : Type*} {f : Nat → α → β} :
    ∀ {n : Nat} {l : List α} {b : β}, b ∈ withRanksFrom f n l →
      ∃ r a, a ∈ l ∧ n ≤ r ∧ b = f r a := by
  intro n l
  induction l generalizing n with
  | nil => intro b h; simp [withRanksFrom] at h
  | cons a as ih =>
    intro b h
    simp only [withRanksFrom] at h
    rcases List.mem_cons.mp h with rfl | h
    · exact ⟨n, a, List.mem_cons_self a as, Nat.le_refl n, rfl⟩
    · rcases ih h with ⟨r, a', ha', hr, rfl⟩
      exact ⟨r, a', List.mem_cons_of_mem a ha', by omega, rfl⟩

theorem pairwise_withRanksFrom {α β : Type*} (R : α → α → Prop) (T : β → β → Prop)
    {f : Nat → α → β}
    (h : ∀ i j a b, i < j → R a b → T (f i a) (f j b)) :
    ∀ (n : Nat) (l : List α), l.Pairwise R → (withRanksFrom f n l).Pairwise T := by
  intro n l
  induction l generalizing n with
  | nil => intro _; simp [withRanksFrom]
  | cons a as ih =>
    intro hp
    rcases List.pairwise_cons.mp hp with ⟨ha, has⟩
    refine List.pairwise_cons.mpr ⟨?_, ih (n + 1) has⟩
    intro y hy
    rcases mem_withRanksFrom hy with ⟨r, a', ha', hr, rfl⟩
    exact h n r a a' (by omega) (ha a' ha')

theorem map_withRanksFrom {α β : Type*} {g : β → Nat} {f : Nat → α → β}
    (hg : ∀ r a, g (f r a) = r) :
    ∀ (n : Nat) (l : List α), (withRanksFrom f n l).map g = List.range' n l.length := by
  intro n l
  induction l generalizing n with
  | nil => rfl
  | cons a as ih => simp [withRanksFrom, hg, ih, List.range']

theorem length_withRanksFrom {α β : Type*} {f : Nat → α → β} :
    ∀ (n : Nat) (l : List α), (withRanksFrom f n l).length = l.length := by
  intro n l
  induction l generalizing n with
  | nil => rfl
  | cons a as ih => simp [withRanksFrom, ih]

theorem pairwise_mem_cases {α : Type*} {R : α → α → Prop} :
    ∀ {l : List α} {a b : α}, l.Pairwise R → a ∈ l → b ∈ l → a = b ∨ R a b ∨ R b a := by
  intro l
  induction l with
  | nil => intro a b _ ha; simp at ha
  | cons x xs ih =>
    intro a b hp ha hb
    rcases List.pairwise_cons.mp hp with ⟨hx, hxs⟩
    rcases List.mem_cons.mp ha with rfl | ha'
    · rcases List.mem_cons.mp hb with rfl | hb'
      · exact Or.inl rfl
      · exact Or.inr (Or.inl (hx b hb'))
    · rcases List.mem_cons.mp hb with rfl | hb'
      · exact Or.inr (Or.inr (hx a ha'))
      · exact ih hxs ha' hb'

theorem nodup_map_key_filterMap {α β : Type*} {f : α → Option β} {g : β → α}
    (hf : ∀ a b, f a = some b → g b = a) :
    ∀ {l : List α}, l.Nodup → ((l.filterMap f).map g).Nodup := by
  intro l
  induction l with
  | nil => intro _; simp
  | cons a as ih =>
    intro hnd
    rcases List.nodup_cons.mp hnd with ⟨hna, hnd'⟩
    cases hfa : f a with
    | none => rw [List.filterMap_cons_none hfa]; exact ih hnd'
    | some b =>
      rw [List.filterMap_cons_some hfa, List.map_cons]
      refine List.nodup_cons.mpr ⟨?_, ih hnd'⟩
      rw [hf a b hfa]
      intro hmem
      rcases List.mem_map.mp hmem with ⟨b', hb', hgb'⟩
      rcases List.mem_filterMap.mp hb' with ⟨a', ha', hfa'⟩
      have hga : g b' = a' := hf a' b' hfa'
      have : a' = a := by rw [← hga, hgb']
      exact hna (this ▸ ha')

theorem fracEq_symm {a b : Frac} (h : FracEq a b) : FracEq b a := by
  unfold FracEq at *; omega

theorem fracLt_asymm {a b : Frac} (h1 : FracLt a b) (h2 : FracLt b a) : False := by
  unfold FracLt at *; omega

theorem fracLt_ne {a b : Frac} (h1 : FracLt a b) (h2 : FracEq a b) : False := by
  unfold FracLt FracEq at *; omega

theorem frac_trichotomy (a b : Frac) : FracLt a b ∨ FracEq a b ∨ FracLt b a := by
  unfold FracLt FracEq; omega

theorem int_lt_cancel_right {x y d : Int} (hd : 0 < d) (h : x * d < y * d) : x < y :=
  lt_of_mul_lt_mul_right h (le_of_lt hd)

theorem int_eq_cancel_right {x y d : Int} (hd : 0 < d) (h : x * d = y * d) : x = y := by
  have := mul_right_cancel₀ (ne_of_gt hd) h
  exact this

theorem fracLt_trans {a b c : Frac} (ha : 0 < a.den) (hb : 0 < b.den) (hc : 0 < c.den)
    (h1 : FracLt a b) (h2 : FracLt b c) : FracLt a c := by
  unfold FracLt at *
  have h3 : a.num * b.den * c.den < b.num * a.den * c.den := mul_lt_mul_of_pos_right h1 hc
  have h4 : b.num * c.den * a.den < c.num * b.den * a.den := mul_lt_mul_of_pos_right h2 ha
  have h5 : a.num * c.den * b.den < c.num * a.den * b.den := by nlinarith
  exact int_lt_cancel_right hb h5

theorem fracEq_trans {a b c : Frac} (ha : 0 < a.den) (hb : 0 < b.den) (hc : 0 < c.den)
    (h1 : FracEq a b) (h2 : FracEq b c) : FracEq a c := by
  unfold FracEq at *
  have h3 : a.num * b.den * c.den = b.num * a.den * c.den := by rw [h1]
  have h4 : b.num * c.den * a.den = c.num * b.den * a.den := by rw [h2]
  have h5 : a.num * c.den * b.den = c.num * a.den * b.den := by nlinarith
  exact int_eq_cancel_right hb h5

theorem fracLt_of_fracEq_of_fracLt {a b c : Frac} (ha : 0 < a.den) (hb : 0 < b.den)
    (hc : 0 < c.den) (h1 : FracEq a b) (h2 : FracLt b c) : FracLt a c := by
  unfold FracEq FracLt at *
  have h4 : b.num * c.den * a.den < c.num * b.den * a.den := mul_lt_mul_of_pos_right h2 ha
  have h5 : a.num * c.den * b.den < c.num * a.den * b.den := by nlinarith
  exact int_lt_cancel_right hb h5

theorem fracLt_of_fracLt_of_fracEq {a b c : Frac} (ha : 0 < a.den) (hb : 0 < b.den)
    (hc : 0 < c.den) (h1 : FracLt a b) (h2 : FracEq b c) : FracLt a c := by
  unfold FracEq FracLt at *
  have h3 : a.num * b.den * c.den < b.num * a.den * c.den := mul_lt_mul_of_pos_right h1 hc
  have h5 : a.num * c.den * b.den < c.num * a.den * b.den := by nlinarith
  exact int_lt_cancel_right hb h5

theorem latestAtOrBefore_some {t : Int} :
    ∀ {l : List MetricSnapshot} {b : MetricSnapshot},
      latestAtOrBefore t l = some b → b ∈ l ∧ b.collected_at ≤ t := by
  intro l
  induction l with
  | nil => intro b h; simp [latestAtOrBefore] at h
  | cons s rest ih =>
    intro b h
    simp only [latestAtOrBefore] at h
    cases hrec : latestAtOrBefore t rest with
    | none =>
      simp only [hrec] at h
      by_cases hs : s.collected_at ≤ t
      · rw [if_pos hs] at h
        injection h with h
        subst h
        exact ⟨List.mem_cons_self s rest, hs⟩
      · rw [if_neg hs] at h
        simp at h
    | some b' =>
      simp only [hrec] at h
      by_cases hc : (decide (s.collected_at ≤ t) && decide (b'.collected_at < s.collected_at)) = true
      · rw [if_pos hc] at h
        injection h with h
        subst h
        simp only [Bool.and_eq_true, decide_eq_true_eq] at hc
        exact ⟨List.mem_cons_self s rest, hc.1⟩
      · rw [if_neg hc] at h
        injection h with h
        subst h
        rcases ih hrec with ⟨hmem, hle⟩
        exact ⟨List.mem_cons_of_mem s hmem, hle⟩

theorem latestAtOrBefore_eq_none {t : Int} :
    ∀ {l : List MetricSnapshot},
      latestAtOrBefore t l = none ↔ ∀ s ∈ l, ¬ s.collected_at ≤ t := by
  intro l
  induction l with
  | nil => simp [latestAtOrBefore]
  | cons s rest ih =>
    simp only [latestAtOrBefore]
    cases hrec : latestAtOrBefore t rest with
    | none =>
      simp only []
      constructor
      · intro hif x hx
        rcases List.mem_cons.mp hx with rfl | hx'
        · by_cases hs : x.collected_at ≤ t
          · rw [if_pos hs] at hif; simp at hif
          · exact hs
        · exact (ih.mp hrec) x hx'
      · intro hall
        rw [if_neg (hall s (List.mem_cons_self s rest))]
    | some b =>
      simp only []
      constructor
      · intro hif
        by_cases hc : (decide (s.collected_at ≤ t) && decide (b.collected_at < s.collected_at)) = true
        · rw [if_pos hc] at hif; simp at hif
        · rw [if_neg hc] at hif; simp at hif
      · intro hall
        have hb := latestAtOrBefore_some hrec
        exact absurd hb.2 (hall b (List.mem_cons_of_mem s hb.1))

theorem surgeCandOf_content_id {now v : Int} {filtered : List MetricSnapshot} {c : String}
    {cand : SurgeCand} (h : surgeCandOf now v filtered c = some cand) :
    cand.content_id = c := by
  unfold surgeCandOf at h
  cases hl : latestAtOrBefore now (snapsOf c filtered) with
  | none => simp only [hl] at h; exact Option.noConfusion h
  | some latest =>
    cases hb : latestAtOrBefore (now - v) (snapsOf c filtered) with
    | none => simp only [hl, hb] at h; exact Option.noConfusion h
    | some baseline =>
      simp only [hl, hb] at h
      injection h with h
      subst h
      rfl

theorem surgeCandOf_spec {now v : Int} {filtered : List MetricSnapshot} {c : String}
    {cand : SurgeCand} (h : surgeCandOf now v filtered c = some cand) :
    ∃ latest baseline,
      latestAtOrBefore now (snapsOf c filtered) = some latest ∧
      latestAtOrBefore (now - v) (snapsOf c filtered) = some baseline ∧
      cand = ⟨c, (latest.view_count : Int) - (baseline.view_count : Int),
        growthOf ((latest.view_count : Int) - (baseline.view_count : Int))
          baseline.view_count⟩ := by
  unfold surgeCandOf at h
  cases hl : latestAtOrBefore now (snapsOf c filtered) with
  | none => simp only [hl] at h; exact Option.noConfusion h
  | some latest =>
    cases hb : latestAtOrBefore (now - v) (snapsOf c filtered) with
    | none => simp only [hl, hb] at h; exact Option.noConfusion h
    | some baseline =>
      simp only [hl, hb] at h
      injection h with h
      exact ⟨latest, baseline, rfl, rfl, h.symm⟩

theorem surgeCandidates_delta_pos {snaps : List MetricSnapshot} {now : Int}
    {platform : Option String} {days v : Int} {cand : SurgeCand}
    (h : cand ∈ surgeCandidates snaps now platform days v) : 0 < cand.delta := by
  unfold surgeCandidates at h
  have h2 := (List.mem_filter.mp h).2
  simpa using h2

theorem surgeCandidates_source {snaps : List MetricSnapshot} {now : Int}
    {platform : Option String} {days v : Int} {cand : SurgeCand}
    (h : cand ∈ surgeCandidates snaps now platform days v) :
    surgeCandOf now v (snaps.filter (platformMatches platform)) cand.content_id = some cand := by
  unfold surgeCandidates at h
  have h1 := (List.mem_filter.mp h).1
  rcases List.mem_filterMap.mp h1 with ⟨c, _, hcand⟩
  rw [surgeCandOf_content_id hcand]
  exact hcand

theorem growthOf_den_pos (d : Int) (b : Nat) : 0 < (growthOf d b).den := by
  unfold growthOf intDivFrac fracMax epsilon
  by_cases h : FracLt ⟨(b : Int), 1⟩ ⟨1, 1000⟩
  · rw [if_pos (by simpa using h)]
    show (0 : Int) < 1
    decide
  · rw [if_neg (by simpa using h)]
    have h' : ¬ ((b : Int) * 1000 < 1 * 1) := h
    show (0 : Int) < (b : Int)
    omega

theorem growthOf_num_of_delta_pos {d : Int} (hd : 0 < d) (b : Nat) :
    0 < (growthOf d b).num := by
  unfold growthOf intDivFrac fracMax epsilon
  by_cases h : FracLt ⟨(b : Int), 1⟩ ⟨1, 1000⟩
  · rw [if_pos (by simpa using h)]
    show (0 : Int) < d * 1000
    omega
  · rw [if_neg (by simpa using h)]
    show (0 : Int) < d * 1
    omega

theorem surgeCand_growth_den_pos {snaps : List MetricSnapshot} {now : Int}
    {platform : Option String} {days v : Int} {cand : SurgeCand}
    (h : cand ∈ surgeCandidates snaps now platform days v) : 0 < cand.growth.den := by
  rcases surgeCandOf_spec (surgeCandidates_source h) with ⟨latest, baseline, _, _, hcand⟩
  rw [hcand]
  exact growthOf_den_pos _ _

theorem surgeCandidates_nodup_ids (snaps : List MetricSnapshot) (now : Int)
    (platform : Option String) (days v : Int) :
    ((surgeCandidates snaps now platform days v).map (fun c => c.content_id)).Nodup := by
  unfold surgeCandidates
  apply List.Nodup.sublist (List.Sublist.map _ (List.filter_sublist _))
  exact nodup_map_key_filterMap (fun a b hb => surgeCandOf_content_id hb) (List.nodup_dedup _)

theorem surgeBefore_total (a b : SurgeCand) :
    surgeBefore a b = true ∨ surgeBefore b a = true := by
  unfold surgeBefore
  simp only [decide_eq_true_eq]
  unfold SurgeCandLE
  rcases frac_trichotomy a.growth b.growth with h | h | h
  · right; exact Or.inl h
  · rcases Int.lt_trichotomy a.delta b.delta with hd | hd | hd
    · right; exact Or.inr ⟨fracEq_symm h, Or.inl hd⟩
    · rcases strLe_total a.content_id b.content_id with hs | hs
      · left; exact Or.inr ⟨h, Or.inr ⟨hd, hs⟩⟩
      · right; exact Or.inr ⟨fracEq_symm h, Or.inr ⟨hd.symm, hs⟩⟩
    · left; exact Or.inr ⟨h, Or.inl hd⟩
  · left; exact Or.inl h

theorem surgeBefore_trans : ∀ a b c : SurgeCand, 0 < a.growth.den → 0 < b.growth.den →
    0 < c.growth.den → surgeBefore a b = true → surgeBefore b c = true →
    surgeBefore a c = true := by
  intro a b c ha hb hc h1 h2
  unfold surgeBefore at h1 h2 ⊢
  simp only [decide_eq_true_eq] at h1 h2 ⊢
  unfold SurgeCandLE at h1 h2 ⊢
  rcases h1 with h1 | ⟨he1, hr1⟩
  · rcases h2 with h2 | ⟨he2, _⟩
    · exact Or.inl (fracLt_trans hc hb ha h2 h1)
    · exact Or.inl (fracLt_of_fracEq_of_fracLt hc hb ha (fracEq_symm he2) h1)
  · rcases h2 with h2 | ⟨he2, hr2⟩
    · exact Or.inl (fracLt_of_fracLt_of_fracEq hc hb ha h2 (fracEq_symm he1))
    · refine Or.inr ⟨fracEq_trans ha hb hc he1 he2, ?_⟩
      rcases hr1 with hd1 | ⟨hd1, hs1⟩
      · rcases hr2 with hd2 | ⟨hd2, _⟩
        · exact Or.inl (by omega)
        · exact Or.inl (by omega)
      · rcases hr2 with hd2 | ⟨hd2, hs2⟩
        · exact Or.inl (by omega)
        · exact Or.inr ⟨by omega, strLe_trans hs1 hs2⟩

theorem surgeCandLT_of_le_ne {a b : SurgeCand} (h : surgeBefore a b = true)
    (hne : a.content_id ≠ b.content_id) : SurgeCandLT a b := by
  unfold surgeBefore at h
  simp only [decide_eq_true_eq] at h
  unfold SurgeCandLE at h
  unfold SurgeCandLT
  rcases h with h | ⟨he, h⟩
  · exact Or.inl h
  · refine Or.inr ⟨he, ?_⟩
    rcases h with h | ⟨hd, hs⟩
    · exact Or.inl h
    · exact Or.inr ⟨hd, hs, hne⟩

theorem recBefore_total (a b : RecCand) : recBefore a b = true ∨ recBefore b a = true := by
  unfold recBefore
  simp only [decide_eq_true_eq]
  unfold RecCandLE
  rcases frac_trichotomy (recCandScore a) (recCandScore b) with h | h | h
  · right; exact Or.inl h
  · rcases strLe_total a.content_id b.content_id with hs | hs
    · left; exact Or.inr ⟨h, hs⟩
    · right; exact Or.inr ⟨fracEq_symm h, hs⟩
  · left; exact Or.inl h

theorem recBefore_trans : ∀ a b c : RecCand, 0 < (recCandScore a).den →
    0 < (recCandScore b).den → 0 < (recCandScore c).den → recBefore a b = true →
    recBefore b c = true → recBefore a c = true := by
  intro a b c ha hb hc h1 h2
  unfold recBefore at h1 h2 ⊢
  simp only [decide_eq_true_eq] at h1 h2 ⊢
  unfold RecCandLE at h1 h2 ⊢
  rcases h1 with h1 | ⟨he1, hs1⟩
  · rcases h2 with h2 | ⟨he2, _⟩
    · exact Or.inl (fracLt_trans hc hb ha h2 h1)
    · exact Or.inl (fracLt_of_fracEq_of_fracLt hc hb ha (fracEq_symm he2) h1)
  · rcases h2 with h2 | ⟨he2, hs2⟩
    · exact Or.inl (fracLt_of_fracLt_of_fracEq hc hb ha h2 (fracEq_symm he1))
    · exact Or.inr ⟨fracEq_trans ha hb hc he1 he2, strLe_trans hs1 hs2⟩

theorem recKeyLT_of_le_ne {a b : RecCand} (h : recBefore a b = true)
    (hne : a.content_id ≠ b.content_id) {i j : Nat} :
    RecKeyLT (recEntryOf i a) (recEntryOf j b) := by
  unfold recBefore at h
  simp only [decide_eq_true_eq] at h
  unfold RecCandLE at h
  unfold RecKeyLT recEntryOf
  rcases h with h | ⟨he, hs⟩
  · exact Or.inl h
  · exact Or.inr ⟨he, hs, hne⟩

theorem hotBefore_total (a b : CatCand) : hotBefore a b = true ∨ hotBefore b a = true := by
  unfold hotBefore
  simp only [decide_eq_true_eq]
  unfold CatCandLE
  rcases Nat.lt_trichotomy a.score b.score with h | h | h
  · right; exact Or.inl h
  · rcases strLe_total a.category b.category with hs | hs
    · left; exact Or.inr ⟨h, hs⟩
    · right; exact Or.inr ⟨h.symm, hs⟩
  · left; exact Or.inl h

theorem hotBefore_trans : ∀ a b c : CatCand, hotBefore a b = true → hotBefore b c = true →
    hotBefore a c = true := by
  intro a b c h1 h2
  unfold hotBefore at h1 h2 ⊢
  simp only [decide_eq_true_eq] at h1 h2 ⊢
  unfold CatCandLE at h1 h2 ⊢
  rcases h1 with h1 | ⟨he1, hs1⟩
  · rcases h2 with h2 | ⟨he2, _⟩
    · exact Or.inl (by omega)
    · exact Or.inl (by omega)
  · rcases h2 with h2 | ⟨he2, hs2⟩
    · exact Or.inl (by omega)
    · exact Or.inr ⟨by omega, strLe_trans hs1 hs2⟩

theorem catKeyLT_of_le_ne {a b : CatCand} (h : hotBefore a b = true)
    (hne : a.category ≠ b.category) {i j : Nat} :
    CatKeyLT (catEntryOf i a) (catEntryOf j b) := by
  unfold hotBefore at h
  simp only [decide_eq_true_eq] at h
  unfold CatCandLE at h
  unfold CatKeyLT catEntryOf
  rcases h with h | ⟨he, hs⟩
  · exact Or.inl h
  · exact Or.inr ⟨he, hs, hne⟩

theorem surgeKeyLT_of_candLT {i j : Nat} {a b : SurgeCand} (h : SurgeCandLT a b) :
    SurgeKeyLT (surgeEntryOf i a) (surgeEntryOf j b) := h

theorem surge_sorted_pairwise (snaps : List MetricSnapshot) (now : Int)
    (platform : Option String) (days v : Int) :
    (sortBy surgeBefore (surgeCandidates snaps now platform days v)).Pairwise SurgeCandLT := by
  have hle := pairwise_sortBy (fun c : SurgeCand => 0 < c.growth.den)
    (fun a b _ _ => surgeBefore_total a b) surgeBefore_trans
    (surgeCandidates snaps now platform days v)
    (fun x hx => surgeCand_growth_den_pos hx)
  have hperm := sortBy_perm surgeBefore (surgeCandidates snaps now platform days v)
  have hnd : ((sortBy surgeBefore (surgeCandidates snaps now platform days v)).map
      (fun c => c.content_id)).Nodup :=
    (List.Perm.nodup_iff (List.Perm.map _ hperm)).mpr
      (surgeCandidates_nodup_ids snaps now platform days v)
  have hne : (sortBy surgeBefore (surgeCandidates snaps now platform days v)).Pairwise
      (fun a b => a.content_id ≠ b.content_id) := List.pairwise_map.mp hnd
  exact (hle.and hne).imp (fun hab => surgeCandLT_of_le_ne hab.1 hab.2)

theorem surge_pairwise (snaps : List MetricSnapshot) (now : Int) (platform : Option String)
    (days v : Int) (limit : Nat) :
    (surge snaps now platform days v limit).Pairwise
      (fun a b => SurgeKeyLT a b ∧ a.rank < b.rank) := by
  unfold surge
  refine pairwise_withRanksFrom SurgeCandLT (fun a b => SurgeKeyLT a b ∧ a.rank < b.rank)
    ?_ 1 _ ?_
  · intro i j a b hij hR
    exact ⟨surgeKeyLT_of_candLT hR, hij⟩
  · exact List.Pairwise.sublist (List.take_sublist _ _)
      (surge_sorted_pairwise snaps now platform days v)

theorem surge_ranks (snaps : List MetricSnapshot) (now : Int) (platform : Option String)
    (days v : Int) (limit : Nat) :
    (surge snaps now platform days v limit).map (fun e => e.rank) =
      List.range' 1 (surge snaps now platform days v limit).length := by
  unfold surge
  rw [length_withRanksFrom]
  exact map_withRanksFrom (fun r a => rfl) 1 _

theorem surge_entry_source {snaps : List MetricSnapshot} {now : Int} {platform : Option String}
    {days v : Int} {limit : Nat} {e : SurgeEntry}
    (h : e ∈ surge snaps now platform days v limit) :
    ∃ r cand, cand ∈ surgeCandidates snaps now platform days v ∧ 1 ≤ r ∧
      e = surgeEntryOf r cand := by
  unfold surge at h
  rcases mem_withRanksFrom h with ⟨r, cand, hmem, hr, rfl⟩
  refine ⟨r, cand, ?_, hr, rfl⟩
  exact (sortBy_perm surgeBefore _).mem_iff.mp (List.Sublist.mem hmem (List.take_sublist _ _))

theorem recCandOf_content_id {now : Int} {category : String} {w : List MetricSnapshot}
    {c : String} {cand : RecCand} (h : recCandOf now category w c = some cand) :
    cand.content_id = c := by
  unfold recCandOf at h
  cases hl : latestAtOrBefore now (snapsOf c w) with
  | none => simp only [hl] at h; exact Option.noConfusion h
  | some latest =>
    simp only [hl] at h
    injection h with h
    subst h
    rfl

theorem recCandOf_spec {now : Int} {category : String} {w : List MetricSnapshot} {c : String}
    {cand : RecCand} (h : recCandOf now category w c = some cand) :
    ∃ latest, latestAtOrBefore now (snapsOf c w) = some latest ∧
      cand = ⟨c, category, latest.view_count, now - latest.collected_at⟩ := by
  unfold recCandOf at h
  cases hl : latestAtOrBefore now (snapsOf c w) with
  | none => simp only [hl] at h; exact Option.noConfusion h
  | some latest =>
    simp only [hl] at h
    injection h with h
    exact ⟨latest, rfl, h.symm⟩

theorem recCandidates_source {snaps : List MetricSnapshot} {now : Int} {category : String}
    {platform : Option String} {days : Int} {cand : RecCand}
    (h : cand ∈ recCandidates snaps now category platform days) :
    recCandOf now category (recWindowSnaps snaps now category platform days) cand.content_id =
      some cand := by
  unfold recCandidates at h
  rcases List.mem_filterMap.mp h with ⟨c, _, hcand⟩
  rw [recCandOf_content_id hcand]
  exact hcand

theorem recCand_freshness_nonneg {snaps : List MetricSnapshot} {now : Int} {category : String}
    {platform : Option String} {days : Int} {cand : RecCand}
    (h : cand ∈ recCandidates snaps now category platform days) : 0 ≤ cand.freshness := by
  rcases recCandOf_spec (recCandidates_source h) with ⟨latest, hl, hcand⟩
  have h2 := (latestAtOrBefore_some hl).2
  rw [hcand]
  show 0 ≤ now - latest.collected_at
  omega

theorem recCandScore_den_pos {snaps : List MetricSnapshot} {now : Int} {category : String}
    {platform : Option String} {days : Int} {cand : RecCand}
    (h : cand ∈ recCandidates snaps now category platform days) :
    0 < (recCandScore cand).den := by
  have hf := recCand_freshness_nonneg h
  unfold recCandScore recScore
  show 0 < 1 + cand.freshness
  omega

theorem recCandScore_num_pos (cand : RecCand) : 0 < (recCandScore cand).num := by
  unfold recCandScore recScore
  show 0 < (cand.magnitude : Int) + 1
  omega

theorem recCandidates_nodup_ids (snaps : List MetricSnapshot) (now : Int) (category : String)
    (platform : Option String) (days : Int) :
    ((recCandidates snaps now category platform days).map (fun c => c.content_id)).Nodup := by
  unfold recCandidates
  exact nodup_map_key_filterMap (fun a b hb => recCandOf_content_id hb) (List.nodup_dedup _)

theorem rec_sorted_pairwise_ne (snaps : List MetricSnapshot) (now : Int) (category : String)
    (platform : Option String) (days : Int) :
    (sortBy recBefore (recCandidates snaps now category platform days)).Pairwise
      (fun a b => recBefore a b = true ∧ a.content_id ≠ b.content_id) := by
  have hle := pairwise_sortBy (fun c : RecCand => 0 < (recCandScore c).den)
    (fun a b _ _ => recBefore_total a b) recBefore_trans
    (recCandidates snaps now category platform days)
    (fun x hx => recCandScore_den_pos hx)
  have hperm := sortBy_perm recBefore (recCandidates snaps now category platform days)
  have hnd : ((sortBy recBefore (recCandidates snaps now category platform days)).map
      (fun c => c.content_id)).Nodup :=
    (List.Perm.nodup_iff (List.Perm.map _ hperm)).mpr
      (recCandidates_nodup_ids snaps now category platform days)
  have hne : (sortBy recBefore (recCandidates snaps now category platform days)).Pairwise
      (fun a b => a.content_id ≠ b.content_id) := List.pairwise_map.mp hnd
  exact hle.and hne

theorem recommend_pairwise (snaps : List MetricSnapshot) (now : Int) (category : String)
    (platform : Option String) (days : Int) (limit : Nat) :
    (recommend snaps now category platform days limit).Pairwise
      (fun a b => RecKeyLT a b ∧ a.rank < b.rank) := by
  unfold recommend
  refine pairwise_withRanksFrom
    (fun a b => recBefore a b = true ∧ a.content_id ≠ b.content_id)
    (fun a b => RecKeyLT a b ∧ a.rank < b.rank) ?_ 1 _ ?_
  · intro i j a b hij hR
    exact ⟨recKeyLT_of_le_ne hR.1 hR.2, hij⟩
  · exact List.Pairwise.sublist (List.take_sublist _ _)
      (rec_sorted_pairwise_ne snaps now category platform days)

theorem recommend_ranks (snaps : List MetricSnapshot) (now : Int) (category : String)
    (platform : Option String) (days : Int) (limit : Nat) :
    (recommend snaps now category platform days limit).map (fun e => e.rank) =
      List.range' 1 (recommend snaps now category platform days limit).length := by
  unfold recommend
  rw [length_withRanksFrom]
  exact map_withRanksFrom (fun r a => rfl) 1 _

theorem rec_entry_source {snaps : List MetricSnapshot} {now : Int} {category : String}
    {platform : Option String} {days : Int} {limit : Nat} {e : ContentRecommendation}
    (h : e ∈ recommend snaps now category platform days limit) :
    ∃ r cand, cand ∈ recCandidates snaps now category platform days ∧ 1 ≤ r ∧
      e = recEntryOf r cand := by
  unfold recommend at h
  rcases mem_withRanksFrom h with ⟨r, cand, hmem, hr, rfl⟩
  refine ⟨r, cand, ?_, hr, rfl⟩
  exact (sortBy_perm recBefore _).mem_iff.mp (List.Sublist.mem hmem (List.take_sublist _ _))

theorem nodup_map_key_map {α β : Type*} {f : α → β} {g : β → α} (hf : ∀ a, g (f a) = a)
    {l : List α} (hl : l.Nodup) : ((l.map f).map g).Nodup := by
  rw [List.map_map]
  have hcomp : (g ∘ f) = id := funext hf
  rw [hcomp, List.map_id]
  exact hl

theorem hotCandidates_nodup_cats (snaps : List MetricSnapshot) (now : Int)
    (platform : Option String) :
    ((hotCandidates snaps now platform).map (fun c => c.category)).Nodup := by
  unfold hotCandidates
  exact nodup_map_key_map (fun a => rfl) (List.nodup_dedup _)

theorem hot_sorted_pairwise_ne (snaps : List MetricSnapshot) (now : Int)
    (platform : Option String) :
    (sortBy hotBefore (hotCandidates snaps now platform)).Pairwise
      (fun a b => hotBefore a b = true ∧ a.category ≠ b.category) := by
  have hle := pairwise_sortBy (fun _ : CatCand => True)
    (fun a b _ _ => hotBefore_total a b)
    (fun a b c _ _ _ => hotBefore_trans a b c)
    (hotCandidates snaps now platform)
    (fun _ _ => trivial)
  have hperm := sortBy_perm hotBefore (hotCandidates snaps now platform)
  have hnd : ((sortBy hotBefore (hotCandidates snaps now platform)).map
      (fun c => c.category)).Nodup :=
    (List.Perm.nodup_iff (List.Perm.map _ hperm)).mpr
      (hotCandidates_nodup_cats snaps now platform)
  have hne : (sortBy hotBefore (hotCandidates snaps now platform)).Pairwise
      (fun a b => a.category ≠ b.category) := List.pairwise_map.mp hnd
  exact hle.and hne

theorem hot_pairwise (snaps : List MetricSnapshot) (now : Int) (platform : Option String)
    (limit : Nat) :
    (hot_categories snaps now platform limit).Pairwise
      (fun a b => CatKeyLT a b ∧ a.rank < b.rank) := by
  unfold hot_categories
  refine pairwise_withRanksFrom
    (fun a b => hotBefore a b = true ∧ a.category ≠ b.category)
    (fun a b => CatKeyLT a b ∧ a.rank < b.rank) ?_ 1 _ ?_
  · intro i j a b hij hR
    exact ⟨catKeyLT_of_le_ne hR.1 hR.2, hij⟩
  · exact List.Pairwise.sublist (List.take_sublist _ _)
      (hot_sorted_pairwise_ne snaps now platform)

theorem hot_ranks (snaps : List MetricSnapshot) (now : Int) (platform : Option String)
    (limit : Nat) :
    (hot_categories snaps now platform limit).map (fun e => e.rank) =
      List.range' 1 (hot_categories snaps now platform limit).length := by
  unfold hot_categories
  rw [length_withRanksFrom]
  exact map_withRanksFrom (fun r a => rfl) 1 _

theorem surge_empty_of_no_window {snaps : List MetricSnapshot} {now : Int}
    {platform : Option String} {days v : Int} {limit : Nat}
    (h : surgeWindowSnaps snaps now platform days = []) :
    surge snaps now platform days v limit = [] := by
  unfold surge surgeCandidates
  rw [h]
  simp [sortBy, withRanksFrom]

theorem recommend_empty_of_no_window {snaps : List MetricSnapshot} {now : Int}
    {category : String} {platform : Option String} {days : Int} {limit : Nat}
    (h : recWindowSnaps snaps now category platform days = []) :
    recommend snaps now category platform days limit = [] := by
  unfold recommend recCandidates
  rw [h]
  simp [sortBy, withRanksFrom]

theorem hot_empty_of_no_window {snaps : List MetricSnapshot} {now : Int}
    {platform : Option String} {limit : Nat}
    (h : hotWindowSnaps snaps now platform = []) :
    hot_categories snaps now platform limit = [] := by
  unfold hot_categories hotCandidates
  rw [h]
  simp [sortBy, withRanksFrom]

theorem growthOf_zero_baseline (d : Int) : growthOf d 0 = ⟨d * 1000, 1⟩ := by
  unfold growthOf intDivFrac fracMax epsilon
  rw [if_pos (by decide : decide (FracLt ⟨((0 : Nat) : Int), 1⟩ ⟨1, 1000⟩) = true)]

/-- C1: for every input snapshot set and every parameter combination, `surge`
contains no entry whose `delta_views_window` is at most zero — non-positive
deltas are filtered out before ranking — and a fully filtered candidate set
yields a valid empty sequence rather than an error. -/
theorem surge_delta_always_positive (snaps : List MetricSnapshot) (now : Int)
    (platform : Option String) (days velocity_days : Int) (limit : Nat) :
    (∀ e ∈ surge snaps now platform days velocity_days limit, 0 < e.delta_views_window) ∧
    (surgeCandidates snaps now platform days velocity_days = [] →
      surge snaps now platform days velocity_days limit = []) := by
  constructor
  · intro e he
    rcases surge_entry_source he with ⟨r, cand, hcand, _, rfl⟩
    exact surgeCandidates_delta_pos hcand
  · intro h
    unfold surge
    rw [h]
    simp [sortBy, withRanksFrom]

theorem surge_delta_always_positive_witness :
    0 < ((⟨"contentX", 50, ⟨50, 100⟩, ⟨50, 100⟩, 1⟩ : SurgeEntry)).delta_views_window :=
  (surge_delta_always_positive scenarioASnaps 1 none 3 1 30).1
    ⟨"contentX", 50, ⟨50, 100⟩, ⟨50, 100⟩, 1⟩ (by decide)

/-- C2: a content with no snapshot at or before `now - velocity_days` appears
in no entry of the sequence returned by `surge`: it is excluded for
insufficient history instead of being given a zero baseline. -/
theorem surge_excludes_missing_baseline (snaps : List MetricSnapshot) (now : Int)
    (platform : Option String) (days velocity_days : Int) (limit : Nat) (c : String)
    (h : ∀ s ∈ snaps, s.content_id = c → now - velocity_days < s.collected_at) :
    ∀ e ∈ surge snaps now platform days velocity_days limit, e.content_id ≠ c := by
  intro e he heq
  rcases surge_entry_source he with ⟨r, cand, hcand, _, rfl⟩
  have hcid : cand.content_id = c := heq
  rcases surgeCandOf_spec (surgeCandidates_source hcand) with ⟨latest, baseline, _, hb, _⟩
  have hbm := latestAtOrBefore_some hb
  have h1 := List.mem_filter.mp hbm.1
  have h2 := List.mem_filter.mp h1.1
  have hid : baseline.content_id = cand.content_id := by simpa using h1.2
  have hlt : now - velocity_days < baseline.collected_at :=
    h baseline h2.1 (by rw [hid, hcid])
  have hle := hbm.2
  omega

theorem surge_excludes_missing_baseline_witness :
    ((⟨"contentX", 50, ⟨50, 100⟩, ⟨50, 100⟩, 1⟩ : SurgeEntry)).content_id ≠ "contentZ" :=
  surge_excludes_missing_baseline scenarioCSnaps 1 none 3 1 30 "contentZ" (by decide)
    ⟨"contentX", 50, ⟨50, 100⟩, ⟨50, 100⟩, 1⟩ (by decide)

/-- C3: every surge entry's `growth_rate_window` equals the window delta
divided by `max(baseline.view_count, epsilon)` for the fixed positive
`epsilon`; the result is a positive, finite fraction (positive numerator and
denominator), and a zero baseline yields the guarded value `delta / epsilon`
instead of a division error. -/
theorem surge_growth_rate_guarded (snaps : List MetricSnapshot) (now : Int)
    (platform : Option String) (days velocity_days : Int) (limit : Nat) :
    FracLt ⟨0, 1⟩ epsilon ∧
    ∀ e ∈ surge snaps now platform days velocity_days limit,
      ∃ latest baseline,
        latestAtOrBefore now
            (snapsOf e.content_id (snaps.filter (platformMatches platform))) = some latest ∧
        latestAtOrBefore (now - velocity_days)
            (snapsOf e.content_id (snaps.filter (platformMatches platform))) = some baseline ∧
        e.delta_views_window = (latest.view_count : Int) - (baseline.view_count : Int) ∧
        e.growth_rate_window =
          intDivFrac e.delta_views_window
            (fracMax ⟨(baseline.view_count : Int), 1⟩ epsilon) ∧
        0 < e.growth_rate_window.num ∧ 0 < e.growth_rate_window.den ∧
        (baseline.view_count = 0 →
          e.growth_rate_window = ⟨e.delta_views_window * 1000, 1⟩) := by
  constructor
  · decide
  · intro e he
    rcases surge_entry_source he with ⟨r, cand, hcand, _, rfl⟩
    have hpos := surgeCandidates_delta_pos hcand
    rcases surgeCandOf_spec (surgeCandidates_source hcand) with ⟨latest, baseline, hl, hb, hceq⟩
    refine ⟨latest, baseline, hl, hb, ?_, ?_, ?_, ?_, ?_⟩
    · rw [hceq]
      rfl
    · rw [hceq]
      rfl
    · rw [hceq] at hpos ⊢
      exact growthOf_num_of_delta_pos hpos _
    · rw [hceq]
      exact growthOf_den_pos _ _
    · intro h0
      rw [hceq]
      rw [h0]
      exact growthOf_zero_baseline _

theorem surge_growth_rate_guarded_witness :
    ∃ latest baseline,
      latestAtOrBefore 1 (snapsOf "contentY" (scenarioBSnaps.filter (platformMatches none))) =
        some latest ∧
      latestAtOrBefore (1 - 1) (snapsOf "contentY" (scenarioBSnaps.filter (platformMatches none))) =
        some baseline ∧
      (20 : Int) = (latest.view_count : Int) - (baseline.view_count : Int) ∧
      (⟨20000, 1⟩ : Frac) = intDivFrac 20 (fracMax ⟨(baseline.view_count : Int), 1⟩ epsilon) ∧
      0 < ((⟨20000, 1⟩ : Frac)).num ∧ 0 < ((⟨20000, 1⟩ : Frac)).den ∧
      (baseline.view_count = 0 → (⟨20000, 1⟩ : Frac) = ⟨(20 : Int) * 1000, 1⟩) :=
  (surge_growth_rate_guarded scenarioBSnaps 1 none 3 1 30).2
    ⟨"contentY", 20, ⟨20000, 1⟩, ⟨20000, 1⟩, 1⟩ (by decide)

/-- C4: for every non-empty snapshot set, `hot_categories`, `recommend` and
`surge` are strictly sorted in descending order of their documented sort keys
with the documented deterministic tie-breaks (surge: score, then window delta,
then content identifier ascending; hot categories: category name ascending;
recommend: content identifier ascending), every rank is a dense 1-based
ordering consistent with the sort key, and repeating the operation on
unchanged input yields an identical sequence. -/
theorem trend_lists_sorted_ranked_deterministic (snaps : List MetricSnapshot) (now : Int)
    (category : String) (platform : Option String) (days velocity_days : Int) (limit : Nat)
    (hne : snaps ≠ []) :
    ((hot_categories snaps now platform limit).Pairwise
        (fun a b => CatKeyLT a b ∧ a.rank < b.rank) ∧
      (hot_categories snaps now platform limit).map (fun e => e.rank) =
        List.range' 1 (hot_categories snaps now platform limit).length ∧
      hot_categories snaps now platform limit = hot_categories snaps now platform limit) ∧
    ((recommend snaps now category platform days limit).Pairwise
        (fun a b => RecKeyLT a b ∧ a.rank < b.rank) ∧
      (recommend snaps now category platform days limit).map (fun e => e.rank) =
        List.range' 1 (recommend snaps now category platform days limit).length ∧
      recommend snaps now category platform days limit =
        recommend snaps now category platform days limit) ∧
    ((surge snaps now platform days velocity_days limit).Pairwise
        (fun a b => SurgeKeyLT a b ∧ a.rank < b.rank) ∧
      (surge snaps now platform days velocity_days limit).map (fun e => e.rank) =
        List.range' 1 (surge snaps now platform days velocity_days limit).length ∧
      surge snaps now platform days velocity_days limit =
        surge snaps now platform days velocity_days limit) :=
  ⟨⟨hot_pairwise snaps now platform limit, hot_ranks snaps now platform limit, rfl⟩,
    ⟨recommend_pairwise snaps now category platform days limit,
      recommend_ranks snaps now category platform days limit, rfl⟩,
    ⟨surge_pairwise snaps now platform days velocity_days limit,
      surge_ranks snaps now platform days velocity_days limit, rfl⟩⟩

theorem trend_lists_sorted_ranked_deterministic_witness :
    scenarioASnaps ≠ [] ∧
    (((hot_categories scenarioASnaps 1 none 20).Pairwise
        (fun a b => CatKeyLT a b ∧ a.rank < b.rank) ∧
      (hot_categories scenarioASnaps 1 none 20).map (fun e => e.rank) =
        List.range' 1 (hot_categories scenarioASnaps 1 none 20).length ∧
      hot_categories scenarioASnaps 1 none 20 = hot_categories scenarioASnaps 1 none 20) ∧
    ((recommend scenarioASnaps 1 "news" none 3 20).Pairwise
        (fun a b => RecKeyLT a b ∧ a.rank < b.rank) ∧
      (recommend scenarioASnaps 1 "news" none 3 20).map (fun e => e.rank) =
        List.range' 1 (recommend scenarioASnaps 1 "news" none 3 20).length ∧
      recommend scenarioASnaps 1 "news" none 3 20 =
        recommend scenarioASnaps 1 "news" none 3 20) ∧
    ((surge scenarioASnaps 1 none 3 1 20).Pairwise
        (fun a b => SurgeKeyLT a b ∧ a.rank < b.rank) ∧
      (surge scenarioASnaps 1 none 3 1 20).map (fun e => e.rank) =
        List.range' 1 (surge scenarioASnaps 1 none 3 1 20).length ∧
      surge scenarioASnaps 1 none 3 1 20 = surge scenarioASnaps 1 none 3 1 20)) :=
  ⟨by decide,
    trend_lists_sorted_ranked_deterministic scenarioASnaps 1 "news" none 3 1 20 (by decide)⟩

/-- C5: whenever two contents returned by `recommend` have equal magnitude
signals (latest in-window view count), the strictly fresher one occupies a
strictly smaller rank number, and every recommendation score is
non-negative. -/
theorem recommend_freshness_and_nonneg (snaps : List MetricSnapshot) (now : Int)
    (category : String) (platform : Option String) (days : Int) (limit : Nat) :
    (∀ e ∈ recommend snaps now category platform days limit,
      0 ≤ e.score.num ∧ 0 < e.score.den) ∧
    ∀ e1 ∈ recommend snaps now category platform days limit,
      ∀ e2 ∈ recommend snaps now category platform days limit,
        ∀ m : Nat,
          recommendMagnitude snaps now category platform days e1.content_id = some m →
          recommendMagnitude snaps now category platform days e2.content_id = some m →
          e1.freshness_days < e2.freshness_days → e1.rank < e2.rank := by
  constructor
  · intro e he
    rcases rec_entry_source he with ⟨r, cand, hcand, _, rfl⟩
    exact ⟨le_of_lt (recCandScore_num_pos cand), recCandScore_den_pos hcand⟩
  · intro e1 he1 e2 he2 m hm1 hm2 hf
    rcases rec_entry_source he1 with ⟨r1, c1, hc1, _, rfl⟩
    rcases rec_entry_source he2 with ⟨r2, c2, hc2, _, rfl⟩
    rcases recCandOf_spec (recCandidates_source hc1) with ⟨l1, hl1, hc1eq⟩
    rcases recCandOf_spec (recCandidates_source hc2) with ⟨l2, hl2, hc2eq⟩
    have hm1' : recommendMagnitude snaps now category platform days c1.content_id = some m := hm1
    have hm2' : recommendMagnitude snaps now category platform days c2.content_id = some m := hm2
    unfold recommendMagnitude at hm1' hm2'
    rw [hl1] at hm1'
    rw [hl2] at hm2'
    simp at hm1' hm2'
    have hmag1 : c1.magnitude = m := by rw [hc1eq]; exact hm1'
    have hmag2 : c2.magnitude = m := by rw [hc2eq]; exact hm2'
    have hf' : c1.freshness < c2.freshness := hf
    have hscore : FracLt (recCandScore c2) (recCandScore c1) := by
      show ((c2.magnitude : Int) + 1) * (1 + c1.freshness) <
        ((c1.magnitude : Int) + 1) * (1 + c2.freshness)
      rw [hmag1, hmag2]
      have hm0 : (0 : Int) < (m : Int) + 1 := by omega
      have hlt : (1 : Int) + c1.freshness < 1 + c2.freshness := by omega
      exact mul_lt_mul_of_pos_left hlt hm0
    have htri := pairwise_mem_cases
      (recommend_pairwise snaps now category platform days limit) he1 he2
    rcases htri with heq | ⟨_, hr⟩ | ⟨hT, _⟩
    · rw [heq] at hf
      exact absurd hf (lt_irrefl _)
    · exact hr
    · exfalso
      rcases hT with hlt2 | ⟨heq2, _⟩
      · exact fracLt_asymm hscore hlt2
      · exact fracLt_ne hscore heq2

theorem recommend_freshness_and_nonneg_witness :
    ((⟨"a1", "news", ⟨11, 1⟩, 0, 1⟩ : ContentRecommendation)).rank <
      ((⟨"b2", "news", ⟨11, 3⟩, 2, 2⟩ : ContentRecommendation)).rank :=
  (recommend_freshness_and_nonneg recDemoSnaps 5 "news" none 14 20).2
    ⟨"a1", "news", ⟨11, 1⟩, 0, 1⟩ (by decide)
    ⟨"b2", "news", ⟨11, 3⟩, 2, 2⟩ (by decide)
    10 (by decide) (by decide) (by decide)

/-- C6: when no snapshot qualifies under a filter, each core operation returns
an empty sequence (never an error), and each router endpoint raises HTTP 404
exactly when the delegated usecase call returns an empty result. -/
theorem core_empty_and_router_404 (snaps : List MetricSnapshot) (now : Int)
    (category : String) (platform : Option String) (days velocity_days : Int) (limit : Nat) :
    ((hotWindowSnaps snaps now platform = [] →
        hot_categories snaps now platform limit = []) ∧
      (recWindowSnaps snaps now category platform days = [] →
        recommend snaps now category platform days limit = []) ∧
      (surgeWindowSnaps snaps now platform days = [] →
        surge snaps now platform days velocity_days limit = [])) ∧
    ((get_hot_categories snaps now platform limit =
        RouterResponse.httpError 404 "집계된 카테고리 트렌드가 없습니다.") ↔
      hot_categories snaps now platform limit = []) ∧
    ((get_category_recommendations snaps now category platform days limit =
        RouterResponse.httpError 404 "추천 가능한 콘텐츠가 없습니다.") ↔
      recommend snaps now category platform days limit = []) ∧
    ((get_surge_videos snaps now platform days velocity_days limit =
        RouterResponse.httpError 404 "급등 영상이 없습니다.") ↔
      surge snaps now platform days velocity_days limit = []) := by
  refine ⟨⟨fun h => hot_empty_of_no_window h, fun h => recommend_empty_of_no_window h,
    fun h => surge_empty_of_no_window h⟩, ?_, ?_, ?_⟩
  · unfold get_hot_categories
    by_cases hemp : (hot_categories snaps now platform limit).isEmpty = true
    · rw [if_pos hemp]
      simp [List.isEmpty_iff.mp hemp]
    · rw [if_neg hemp]
      constructor
      · intro hx
        exact RouterResponse.noConfusion hx
      · intro hx
        exact absurd (List.isEmpty_iff.mpr hx) hemp
  · unfold get_category_recommendations
    by_cases hemp : (recommend snaps now category platform days limit).isEmpty = true
    · rw [if_pos hemp]
      simp [List.isEmpty_iff.mp hemp]
    · rw [if_neg hemp]
      constructor
      · intro hx
        exact RouterResponse.noConfusion hx
      · intro hx
        exact absurd (List.isEmpty_iff.mpr hx) hemp
  · unfold get_surge_videos
    by_cases hemp : (surge snaps now platform days velocity_days limit).isEmpty = true
    · rw [if_pos hemp]
      simp [List.isEmpty_iff.mp hemp]
    · rw [if_neg hemp]
      constructor
      · intro hx
        exact RouterResponse.noConfusion hx
      · intro hx
        exact absurd (List.isEmpty_iff.mpr hx) hemp

theorem core_empty_and_router_404_witness :
    surge ([] : List MetricSnapshot) 0 none 3 1 30 = [] ∧
    get_surge_videos ([] : List MetricSnapshot) 0 none 3 1 30 =
      RouterResponse.httpError 404 "급등 영상이 없습니다." :=
  ⟨(core_empty_and_router_404 [] 0 "news" none 3 1 30).1.2.2 (by decide),
    ((core_empty_and_router_404 [] 0 "news" none 3 1 30).2.2.2).mpr
      ((core_empty_and_router_404 [] 0 "news" none 3 1 30).1.2.2 (by decide))⟩

/-- C7: on Scenario A (contentX with 100 views at day 0 and 150 at day 1,
queried at day 1 with a one-day velocity window) `surge` selects the day-1
snapshot as latest and the day-0 snapshot as baseline, reports
`delta_views_window = 50 = 150 - 100` and a `growth_rate_window` equal to the
rational value one half. -/
theorem surge_scenario_a_values :
    latestAtOrBefore 1 (snapsOf "contentX" scenarioASnaps) =
      some ⟨"contentX", "news", "youtube", 1, 150⟩ ∧
    latestAtOrBefore 0 (snapsOf "contentX" scenarioASnaps) =
      some ⟨"contentX", "news", "youtube", 0, 100⟩ ∧
    surge scenarioASnaps 1 none 3 1 30 =
      [⟨"contentX", 50, ⟨50, 100⟩, ⟨50, 100⟩, 1⟩] ∧
    (50 : Int) = 150 - 100 ∧
    FracEq ⟨50, 100⟩ ⟨1, 2⟩ := by
  decide

/-- C8: `get_stopwords` on a freshly constructed repository is a pure
membership query with no failure mode: it returns exactly the set of stored
words whose language equals `lang` and whose enabled flag is true, and a
language with no stored stopwords yields the empty set. -/
theorem get_stopwords_exact_membership (rows : List StopwordRow) (lang : String) (sid : Nat)
    (w : String) :
    (get_stopwords (stopwordRepositoryInit sid).1 rows lang).1 =
      Except.ok (stopwordQueryWords rows lang) ∧
    (w ∈ stopwordQueryWords rows lang ↔
      ∃ r ∈ rows, r.lang = lang ∧ r.enabled = true ∧ r.word = w) ∧
    ((∀ r ∈ rows, r.lang ≠ lang) → stopwordQueryWords rows lang = []) := by
  refine ⟨rfl, ?_, ?_⟩
  · unfold stopwordQueryWords
    simp only [List.mem_dedup, List.mem_map, List.mem_filter, Bool.and_eq_true, beq_iff_eq]
    constructor
    · rintro ⟨r, ⟨hr, hl, he⟩, hw⟩
      exact ⟨r, hr, hl, he, hw⟩
    · rintro ⟨r, hr, hl, he, hw⟩
      exact ⟨r, ⟨hr, hl, he⟩, hw⟩
  · intro hall
    unfold stopwordQueryWords
    have hfil : rows.filter (fun r => r.lang == lang && r.enabled) = [] := by
      rw [List.filter_eq_nil_iff]
      intro r hr
      simp [hall r hr]
    rw [hfil]
    rfl

theorem get_stopwords_exact_membership_witness :
    "은" ∈ stopwordQueryWords demoStopwordRows "ko" ∧
    stopwordQueryWords demoStopwordRows "xx" = [] :=
  ⟨(get_stopwords_exact_membership demoStopwordRows "ko" 0 "은").2.1.mpr
      ⟨⟨"은", "ko", true⟩, by decide, rfl, rfl, rfl⟩,
    (get_stopwords_exact_membership demoStopwordRows "xx" 0 "은").2.2 (by decide)⟩

/-- C9: the session lifecycle of `StopwordRepositoryImpl` is not scoped per
call: the constructor acquires the session, a `get_stopwords` call acquires
nothing and releases the constructor's session in its `finally`, and a second
call on the same instance therefore runs on a session it did not acquire,
which is already closed. -/
theorem stopword_session_acquired_in_init_not_per_call :
    (stopwordRepositoryInit 7).2 = [SessionEvent.acquired 7] ∧
    (get_stopwords (stopwordRepositoryInit 7).1 demoStopwordRows "ko").2.2 =
      [SessionEvent.released 7] ∧
    (get_stopwords (stopwordRepositoryInit 7).1 demoStopwordRows "ko").2.1.db.isOpen = false ∧
    (get_stopwords (get_stopwords (stopwordRepositoryInit 7).1 demoStopwordRows "ko").2.1
        demoStopwordRows "ko").1 = Except.error "session already closed" :=
  ⟨rfl, rfl, rfl, rfl⟩

/-- C10: the `list_categories` endpoint validates its `limit` query parameter
against the range 1..500 with default 100, delegates to the usecase's
`get_categories`, and raises HTTP 404 exactly when the returned category list
is empty. -/
theorem list_categories_limit_and_404 (g : Int → List String) (n : Int) :
    queryIntParam 1 500 100 none = some 100 ∧
    (queryIntParam 1 500 100 (some n) = some n ↔ 1 ≤ n ∧ n ≤ 500) ∧
    (queryIntParam 1 500 100 (some n) = none ↔ ¬ (1 ≤ n ∧ n ≤ 500)) ∧
    ∀ lp l, queryIntParam 1 500 100 lp = some l →
      ((list_categories g lp = RouterResponse.httpError 404 "등록된 카테고리가 없습니다.") ↔
        g l = []) ∧
      (g l ≠ [] → list_categories g lp = RouterResponse.ok (g l)) := by
  refine ⟨rfl, ?_, ?_, ?_⟩
  · simp only [queryIntParam]
    by_cases h : (decide (1 ≤ n) && decide (n ≤ 500)) = true
    · rw [if_pos h]
      simp only [Bool.and_eq_true, decide_eq_true_eq] at h
      simp [h]
    · rw [if_neg h]
      simp only [Bool.and_eq_true, decide_eq_true_eq] at h
      constructor
      · intro hx
        exact Option.noConfusion hx
      · intro hx
        exact absurd ⟨hx.1, hx.2⟩ h
  · simp only [queryIntParam]
    by_cases h : (decide (1 ≤ n) && decide (n ≤ 500)) = true
    · rw [if_pos h]
      simp only [Bool.and_eq_true, decide_eq_true_eq] at h
      simp [h]
    · rw [if_neg h]
      simp only [Bool.and_eq_true, decide_eq_true_eq] at h
      simp [h]
  · intro lp l hval
    simp only [list_categories, hval]
    constructor
    · by_cases hemp : (g l).isEmpty = true
      · rw [if_pos hemp]
        simp [List.isEmpty_iff.mp hemp]
      · rw [if_neg hemp]
        constructor
        · intro hx
          exact RouterResponse.noConfusion hx
        · intro hx
          exact absurd (List.isEmpty_iff.mpr hx) hemp
    · intro hx
      rw [if_neg (fun hy => hx (List.isEmpty_iff.mp hy))]

theorem list_categories_limit_and_404_witness :
    list_categories (fun _ => ([] : List String)) (some 250) =
      RouterResponse.httpError 404 "등록된 카테고리가 없습니다." :=
  ((list_categories_limit_and_404 (fun _ => ([] : List String)) 250).2.2.2
    (some 250) 250 (by decide)).1.mpr rfl
